import Mathlib

/-!
Verification of the code-scanning core of Bot.py (Bimbetta/Scanner).

The embedding models, from the source:
  * CodeDecoder.preprocess_image  — the five-variant preprocessing pipeline;
  * CodeDecoder.get_barcode_type_name — the pyzbar symbol-type naming;
  * CodeDecoder.decode_codes      — image decode, per-variant scanning,
    deduplication by (payload text, symbology name), and report assembly;
  * TelegramBot.analyze_product_code and TelegramBot.analyze_qr_content —
    the payload classifiers.

External libraries (OpenCV, pyzbar, Python's UTF-8 codec) are modelled
explicitly: cv2.imdecode and pyzbar.decode are abstract parameters of the
pipeline (an Env record), while the pure image transforms and the UTF-8
decoder are given concrete executable models faithful to their documented
behaviour at the level the source depends on.
-/

/-- A pixel value as stored in a uint8 numpy array. -/
def pv (px : ℕ → ℕ → ℕ) (y x : ℕ) : ℕ := px y x % 256

/-- An in-memory numpy image as produced by cv2: either a 2-dimensional
(grayscale) array of shape (height, width), or a 3-dimensional array of
shape (height, width, channels).  Pixels are uint8, modelled by reading
every sample modulo 256. -/
inductive Img where
  | gray (height width : ℕ) (px : ℕ → ℕ → ℕ)
  | color (height width channels : ℕ) (px : ℕ → ℕ → ℕ → ℕ)

/-- image.shape[0]. -/
def imHeight : Img → ℕ
  | .gray h _ _ => h
  | .color h _ _ _ => h

/-- image.shape[1]. -/
def imWidth : Img → ℕ
  | .gray _ w _ => w
  | .color _ w _ _ => w

/-- len(image.shape): 2 for a grayscale array, 3 for a color array. -/
def imNdim : Img → ℕ
  | .gray _ _ _ => 2
  | .color _ _ _ _ => 3

/-- All sample values of a grayscale image, in row-major order. -/
def grayData (h w : ℕ) (px : ℕ → ℕ → ℕ) : List ℕ :=
  (List.range h).foldr (fun y acc => ((List.range w).map (fun x => pv px y x)) ++ acc) []

/-- Model of the external primitive cv2.cvtColor(·, cv2.COLOR_BGR2GRAY):
per-pixel luminance Y = 0.299 R + 0.587 G + 0.114 B computed in OpenCV's
14-bit fixed point (channel order B, G, R).  On a 2-dimensional input the
source never calls this (it only converts in the 3-dimensional branch), so
that case is left as the identity. -/
def cvtColorGray : Img → Img
  | .color h w _ px =>
      .gray h w (fun y x =>
        (pv (fun a b => px a b 2) y x * 4899 +
         pv (fun a b => px a b 1) y x * 9617 +
         pv (fun a b => px a b 0) y x * 1868 + 8192) / 16384)
  | .gray h w px => .gray h w px

/-- Rounded division (round half up) on naturals. -/
def natRound (a b : ℕ) : ℕ := (2 * a + b) / (2 * b)

/-- Model of the external primitive cv2.equalizeHist: histogram
equalization of a grayscale image.  The lookup table maps the smallest
occurring value to 0 and value v to round(255 * H(v) / (N - h0)) where
H(v) counts samples strictly above the minimum and at most v, N is the
sample count and h0 the count of the minimum; a constant image is returned
unchanged (OpenCV sets every pixel to that constant). -/
def equalizeHist : Img → Img
  | .gray h w px =>
      let pxs := grayData h w px
      let total := h * w
      let i0 := pxs.foldr min 255
      let h0 := pxs.count i0
      if h0 = total then .gray h w (fun y x => pv px y x)
      else
        .gray h w (fun y x =>
          let v := pv px y x
          if v ≤ i0 then 0
          else natRound ((pxs.countP (fun u => i0 < u ∧ u ≤ v)) * 255) (total - h0))
  | img => img

/-- Clamp an integer index into [0, n-1] (BORDER_REPLICATE). -/
def clampIdx (n : ℕ) (i : ℤ) : ℕ := (max 0 (min i ((n : ℤ) - 1))).toNat

/-- Model of the external primitive cv2.adaptiveThreshold(·, maxVal,
cv2.ADAPTIVE_THRESH_GAUSSIAN_C, cv2.THRESH_BINARY, block, c): each output
pixel is maxVal when the source pixel exceeds the local mean of its
block×block replicated-border neighbourhood minus c, else 0.  The Gaussian
weighting of the neighbourhood mean is modelled by the arithmetic mean;
no property below depends on the weighting. -/
def adaptiveThreshold : Img → ℕ → ℕ → ℤ → Img
  | .gray h w px, maxVal, block, c =>
      .gray h w (fun y x =>
        let r := block / 2
        let s := ((List.range block).foldr (fun dy acc =>
                    ((List.range block).map (fun dx =>
                      pv px (clampIdx h ((y : ℤ) + dy - r)) (clampIdx w ((x : ℤ) + dx - r)))) ++ acc) []).sum
        let mean : ℤ := (s : ℤ) / (block * block)
        if (pv px y x : ℤ) > mean - c then maxVal else 0)
  | img, _, _, _ => img

/-- Between-class variance score used by Otsu's method, as a rational. -/
def otsuScore (pxs : List ℕ) (t : ℕ) : ℚ :=
  let c0 := pxs.countP (fun v => v ≤ t)
  let c1 := pxs.length - c0
  let s0 := (pxs.filter (fun v => v ≤ t)).sum
  let s1 := pxs.sum - s0
  if c0 = 0 ∨ c1 = 0 then 0
  else ((s0 * c1 : ℤ) - (s1 * c0) : ℚ) ^ 2 / ((c0 : ℚ) * c1)

/-- The Otsu threshold: the first t in 0..255 maximizing the between-class
variance. -/
def otsuT (pxs : List ℕ) : ℕ :=
  ((List.range 256).foldl
    (fun best t => if otsuScore pxs t > best.2 then (t, otsuScore pxs t) else best)
    (0, otsuScore pxs 0)).1

/-- Model of the external primitive cv2.threshold(·, 0, 255,
cv2.THRESH_BINARY + cv2.THRESH_OTSU): global binarization at the Otsu
threshold (the explicit threshold argument 0 is ignored in Otsu mode). -/
def otsuThreshold : Img → Img
  | .gray h w px =>
      let t := otsuT (grayData h w px)
      .gray h w (fun y x => if pv px y x > t then 255 else 0)
  | img => img

/-- The grayscale working image of CodeDecoder.preprocess_image:
cv2.cvtColor(image, cv2.COLOR_BGR2GRAY) when len(image.shape) == 3,
otherwise the image itself. -/
def grayOf (image : Img) : Img :=
  if imNdim image = 3 then cvtColorGray image else image

/-- CodeDecoder.preprocess_image: the original image, its grayscale,
the histogram-equalized grayscale, the adaptive threshold (block 11,
constant 2) and the Otsu threshold, in this order. -/
def preprocess_image (image : Img) : List Img :=
  let gray := grayOf image
  [image, gray, equalizeHist gray, adaptiveThreshold gray 255 11 2, otsuThreshold gray]

theorem cvtColorGray_width (i : Img) : imWidth (cvtColorGray i) = imWidth i := by
  cases i <;> rfl

theorem cvtColorGray_height (i : Img) : imHeight (cvtColorGray i) = imHeight i := by
  cases i <;> rfl

theorem equalizeHist_width (i : Img) : imWidth (equalizeHist i) = imWidth i := by
  cases i with
  | gray h w px =>
      show imWidth (if _ = _ then _ else _) = _
      split <;> rfl
  | color h w c px => rfl

theorem equalizeHist_height (i : Img) : imHeight (equalizeHist i) = imHeight i := by
  cases i with
  | gray h w px =>
      show imHeight (if _ = _ then _ else _) = _
      split <;> rfl
  | color h w c px => rfl

theorem adaptiveThreshold_width (i : Img) (m b : ℕ) (c : ℤ) :
    imWidth (adaptiveThreshold i m b c) = imWidth i := by
  cases i <;> rfl

theorem adaptiveThreshold_height (i : Img) (m b : ℕ) (c : ℤ) :
    imHeight (adaptiveThreshold i m b c) = imHeight i := by
  cases i <;> rfl

theorem otsuThreshold_width (i : Img) : imWidth (otsuThreshold i) = imWidth i := by
  cases i <;> rfl

theorem otsuThreshold_height (i : Img) : imHeight (otsuThreshold i) = imHeight i := by
  cases i <;> rfl

theorem grayOf_width (i : Img) : imWidth (grayOf i) = imWidth i := by
  unfold grayOf; split
  · exact cvtColorGray_width i
  · rfl

theorem grayOf_height (i : Img) : imHeight (grayOf i) = imHeight i := by
  unfold grayOf; split
  · exact cvtColorGray_height i
  · rfl

/-- The pyzbar ZBarSymbol members.  The fifteen members named by
CodeDecoder.get_barcode_type_name are listed; any other member of the
enumeration is carried as `other s` where s is its Python str(). -/
inductive ZBarSymbol where
  | EAN8 | EAN13 | UPCA | UPCE | CODE39 | CODE93 | CODE128 | CODABAR
  | DATABAR | DATABAR_EXP | I25 | QRCODE | PDF417 | DATAMATRIX | AZTEC
  | other (s : String)
deriving DecidableEq

/-- Python str() of a ZBarSymbol member. -/
def symbolStr : ZBarSymbol → String
  | .EAN8 => "ZBarSymbol.EAN8"
  | .EAN13 => "ZBarSymbol.EAN13"
  | .UPCA => "ZBarSymbol.UPCA"
  | .UPCE => "ZBarSymbol.UPCE"
  | .CODE39 => "ZBarSymbol.CODE39"
  | .CODE93 => "ZBarSymbol.CODE93"
  | .CODE128 => "ZBarSymbol.CODE128"
  | .CODABAR => "ZBarSymbol.CODABAR"
  | .DATABAR => "ZBarSymbol.DATABAR"
  | .DATABAR_EXP => "ZBarSymbol.DATABAR_EXP"
  | .I25 => "ZBarSymbol.I25"
  | .QRCODE => "ZBarSymbol.QRCODE"
  | .PDF417 => "ZBarSymbol.PDF417"
  | .DATAMATRIX => "ZBarSymbol.DATAMATRIX"
  | .AZTEC => "ZBarSymbol.AZTEC"
  | .other s => s

/-- CodeDecoder.get_barcode_type_name: the readable name of a pyzbar
symbol type, falling back to "Type inconnu (<str of the member>)". -/
def get_barcode_type_name : ZBarSymbol → String
  | .EAN8 => "EAN-8"
  | .EAN13 => "EAN-13"
  | .UPCA => "UPC-A"
  | .UPCE => "UPC-E"
  | .CODE39 => "Code 39"
  | .CODE93 => "Code 93"
  | .CODE128 => "Code 128"
  | .CODABAR => "Codabar"
  | .DATABAR => "DataBar"
  | .DATABAR_EXP => "DataBar Expanded"
  | .I25 => "Interleaved 2 of 5"
  | .QRCODE => "QR Code"
  | .PDF417 => "PDF417"
  | .DATAMATRIX => "Data Matrix"
  | .AZTEC => "Aztec Code"
  | .other s => "Type inconnu (" ++ s ++ ")"

/-- Model of Python bytes.decode('utf-8', handler): decodes a byte list
into characters; each maximal invalid subpart is turned into `repl`
(empty for errors='ignore', one replacement character for
errors='replace').  Overlong encodings, surrogates and code points above
U+10FFFF are invalid, as in CPython. -/
def utf8DecodeFuel (repl : List Char) : ℕ → List ℕ → List Char
  | 0, _ => []
  | _ + 1, [] => []
  | fuel + 1, b :: bs =>
    if b < 0x80 then Char.ofNat b :: utf8DecodeFuel repl fuel bs
    else if b < 0xC2 then repl ++ utf8DecodeFuel repl fuel bs
    else if b ≤ 0xDF then
      match bs with
      | [] => repl
      | b2 :: bs2 =>
        if 0x80 ≤ b2 ∧ b2 ≤ 0xBF then
          Char.ofNat ((b - 0xC0) * 0x40 + (b2 - 0x80)) :: utf8DecodeFuel repl fuel bs2
        else repl ++ utf8DecodeFuel repl fuel (b2 :: bs2)
    else if b ≤ 0xEF then
      match bs with
      | [] => repl
      | b2 :: bs2 =>
        if (if b = 0xE0 then 0xA0 ≤ b2 ∧ b2 ≤ 0xBF
            else if b = 0xED then 0x80 ≤ b2 ∧ b2 ≤ 0x9F
            else 0x80 ≤ b2 ∧ b2 ≤ 0xBF) then
          match bs2 with
          | [] => repl
          | b3 :: bs3 =>
            if 0x80 ≤ b3 ∧ b3 ≤ 0xBF then
              Char.ofNat ((b - 0xE0) * 0x1000 + (b2 - 0x80) * 0x40 + (b3 - 0x80)) ::
                utf8DecodeFuel repl fuel bs3
            else repl ++ utf8DecodeFuel repl fuel (b3 :: bs3)
        else repl ++ utf8DecodeFuel repl fuel (b2 :: bs2)
    else if b ≤ 0xF4 then
      match bs with
      | [] => repl
      | b2 :: bs2 =>
        if (if b = 0xF0 then 0x90 ≤ b2 ∧ b2 ≤ 0xBF
            else if b = 0xF4 then 0x80 ≤ b2 ∧ b2 ≤ 0x8F
            else 0x80 ≤ b2 ∧ b2 ≤ 0xBF) then
          match bs2 with
          | [] => repl
          | b3 :: bs3 =>
            if 0x80 ≤ b3 ∧ b3 ≤ 0xBF then
              match bs3 with
              | [] => repl
              | b4 :: bs4 =>
                if 0x80 ≤ b4 ∧ b4 ≤ 0xBF then
                  Char.ofNat ((b - 0xF0) * 0x40000 + (b2 - 0x80) * 0x1000 +
                    (b3 - 0x80) * 0x40 + (b4 - 0x80)) :: utf8DecodeFuel repl fuel bs4
                else repl ++ utf8DecodeFuel repl fuel (b4 :: bs4)
            else repl ++ utf8DecodeFuel repl fuel (b3 :: bs3)
        else repl ++ utf8DecodeFuel repl fuel (b2 :: bs2)
    else repl ++ utf8DecodeFuel repl fuel bs

/-- The decoder at adequate fuel: every step of `utf8DecodeFuel` consumes
at least one input byte and recurses on a strict suffix, so fuel equal to
the input length never runs out. -/
def utf8DecodeAux (repl : List Char) (l : List ℕ) : List Char :=
  utf8DecodeFuel repl l.length l

/-- obj.data.decode('utf-8', errors='ignore'), as used by
CodeDecoder.decode_codes: invalid subparts are dropped. -/
def utf8DecodeIgnore (bs : List ℕ) : String := ⟨utf8DecodeAux [] bs⟩

/-- Follows the spec's words, for comparison with the source's
errors='ignore' conversion: best-effort lossy text conversion in which
each invalid byte sequence is replaced by the replacement character
(Python errors='replace'). -/
def utf8DecodeReplace (bs : List ℕ) : String := ⟨utf8DecodeAux ['�'] bs⟩

/-- The pyzbar Rect named tuple of a detection. -/
structure PyRect where
  left : ℤ
  top : ℤ
  width : ℤ
  height : ℤ
deriving DecidableEq

/-- The {'x','y','width','height'} dict stored in a report entry. -/
structure RectInfo where
  x : ℤ
  y : ℤ
  width : ℤ
  height : ℤ
deriving DecidableEq

/-- A raw pyzbar detection: payload bytes, symbol type, quality
(None here models a detection object without a quality attribute, which
the source renders as 'N/A'), bounding rectangle and polygon. -/
structure ZbarObj where
  data : List ℕ
  type : ZBarSymbol
  quality : Option ℤ
  rect : PyRect
  polygon : List (ℤ × ℤ)
deriving DecidableEq

/-- One entry of the codes_found list built by CodeDecoder.decode_codes. -/
structure CodeEntry where
  data : String
  type : String
  raw_type : String
  quality : Option ℤ
  rect : RectInfo
  polygon : List (ℤ × ℤ)
  preprocessing_step : ℕ
deriving DecidableEq

/-- The dict appended for a detection obj found in preprocessing step i. -/
def mkEntry (i : ℕ) (obj : ZbarObj) : CodeEntry :=
  { data := utf8DecodeIgnore obj.data
  , type := get_barcode_type_name obj.type
  , raw_type := symbolStr obj.type
  , quality := obj.quality
  , rect := { x := obj.rect.left, y := obj.rect.top
            , width := obj.rect.width, height := obj.rect.height }
  , polygon := obj.polygon
  , preprocessing_step := i }

/-- The deduplication key of a report entry: (payload text, symbology
name), exactly the two fields compared by the duplicate test. -/
def keyOf (e : CodeEntry) : String × String := (e.data, e.type)

/-- The deduplication key a raw detection would get. -/
def rawKey (p : ℕ × ZbarObj) : String × String :=
  (utf8DecodeIgnore p.2.data, get_barcode_type_name p.2.type)

/-- The external capabilities CodeDecoder.decode_codes invokes:
cv2.imdecode(·, cv2.IMREAD_COLOR) on the raw byte buffer (None on a
buffer that is not a readable image), and pyzbar.decode on one image
variant (none models the call raising an exception, which the source
catches and treats as an empty contribution for that variant). -/
structure Env where
  imdecode : List ℕ → Option Img
  pyzbarDecode : Img → Option (List ZbarObj)

/-- The detections contributed by one variant: the pyzbar result, or
nothing when the call raised (the except branch logs and continues). -/
def scanObjs (env : Env) (img : Img) : List ZbarObj :=
  (env.pyzbarDecode img).getD []

/-- The body of the duplicate check and append: the detection is appended
unless some existing entry already has its payload text and type name. -/
def insertIfNew (acc : List CodeEntry) (p : ℕ × ZbarObj) : List CodeEntry :=
  if acc.any (fun e => e.data == utf8DecodeIgnore p.2.data &&
                       e.type == get_barcode_type_name p.2.type)
  then acc
  else acc ++ [mkEntry p.1 p.2]

/-- Python enumerate, starting at n. -/
def enumF (n : ℕ) : List α → List (ℕ × α)
  | [] => []
  | a :: as => (n, a) :: enumF (n + 1) as

/-- Flattening of a list of lists. -/
def listFlat (f : α → List β) : List α → List β
  | [] => []
  | a :: as => f a ++ listFlat f as

/-- The raw detection stream of a variant list: every detection of every
variant, tagged with the variant's ordinal, in ordinal order and, within
one variant, in the order pyzbar returned them. -/
def flatRaw (env : Env) (variants : List Img) : List (ℕ × ZbarObj) :=
  listFlat (fun p => (scanObjs env p.2).map (fun o => (p.1, o))) (enumF 0 variants)

/-- The two nested loops of CodeDecoder.decode_codes: for each variant in
enumeration order, for each detection, append it unless its key is
already present. -/
def aggregate (env : Env) (variants : List Img) : List CodeEntry :=
  (enumF 0 variants).foldl
    (fun acc p => (scanObjs env p.2).foldl (fun a o => insertIfNew a (p.1, o)) acc) []

/-- image.shape[2] if len(image.shape) == 3 else 1. -/
def imChannels : Img → ℕ
  | .color _ _ c _ => c
  | .gray _ _ _ => 1

/-- The image_info dict of a report. -/
structure ImageInfo where
  dimensions : String
  channels : ℕ
deriving DecidableEq

/-- The result dict of CodeDecoder.decode_codes, one optional field per
possible key. -/
structure PyResult where
  error : Option String
  codes_found : Option (List CodeEntry)
  image_info : Option ImageInfo
  total_codes : Option ℕ
deriving DecidableEq

/-- CodeDecoder.decode_codes: decode the byte buffer (np.frombuffer is
the identity on the raw bytes); on failure return the bare error dict;
otherwise scan every preprocessed variant, deduplicate, and assemble the
report with image metadata and the total count. -/
def decode_codes (env : Env) (image_data : List ℕ) : PyResult :=
  match env.imdecode image_data with
  | none =>
      { error := some "Impossible de lire l'image"
      , codes_found := none, image_info := none, total_codes := none }
  | some image =>
      let info : ImageInfo :=
        { dimensions := toString (imWidth image) ++ "x" ++ toString (imHeight image)
        , channels := imChannels image }
      let all_decoded := aggregate env (preprocess_image image)
      { error := none
      , codes_found := some all_decoded
      , image_info := some info
      , total_codes := some all_decoded.length }

/-- Python str.startswith. -/
def pyStartswith (s pre : List Char) : Bool := pre.isPrefixOf s

/-- Index of the first occurrence of a nonempty separator in a string
(Python str.find for a found separator). -/
def firstOcc (sep : List Char) : List Char → Option ℕ
  | [] => none
  | c :: cs => if sep.isPrefixOf (c :: cs) then some 0 else (firstOcc sep cs).map (· + 1)

/-- Python `sub in s` for the nonempty separators used by the source. -/
def pyContains (s sub : List Char) : Bool := (firstOcc sub s).isSome

/-- Python str.split(sep) for a nonempty sep, with explicit fuel (each
split step consumes at least the separator, so fuel equal to the string
length plus one never runs out). -/
def pySplitFuel (sep : List Char) : ℕ → List Char → List (List Char)
  | 0, s => [s]
  | fuel + 1, s =>
    match firstOcc sep s with
    | none => [s]
    | some i => s.take i :: pySplitFuel sep fuel (s.drop (i + sep.length))

/-- Python str.split(sep): segments between the non-overlapping
occurrences of sep, scanned left to right. -/
def pySplit (sep s : List Char) : List (List Char) := pySplitFuel sep (s.length + 1) s

/-- TelegramBot.analyze_product_code: structural decomposition of an
EAN-13-length or EAN-8-length payload into the bullet lines the source
renders, empty for any other length.  Python's data[:3], data[3:8],
data[8:12], data[12] and data[:2], data[2:7], data[7] slices become
take/drop (data[12] renders as the one-character slice it is under the
length-13 guard). -/
def analyze_product_code (data : List Char) : List Char :=
  if data.length = 13 then
    "• **Code pays :** ".data ++ data.take 3 ++ "\n".data ++
    "• **Code fabricant :** ".data ++ (data.drop 3).take 5 ++ "\n".data ++
    "• **Code produit :** ".data ++ (data.drop 8).take 4 ++ "\n".data ++
    "• **Chiffre de contrôle :** ".data ++ (data.drop 12).take 1 ++ "\n".data
  else if data.length = 8 then
    "• **Code pays :** ".data ++ data.take 2 ++ "\n".data ++
    "• **Code produit :** ".data ++ (data.drop 2).take 5 ++ "\n".data ++
    "• **Chiffre de contrôle :** ".data ++ (data.drop 7).take 1 ++ "\n".data
  else []

/-- TelegramBot.analyze_qr_content: prefix classification of a QR
payload; in the WiFi branch the SSID is data.split('S:')[1].split(';')[0]
(the Python list indexings are guarded by the `'S:' in data` test, under
which both lists are long enough).  Always appends the character-length
line. -/
def analyze_qr_content (data : List Char) : List Char :=
  let analysis : List Char :=
    if pyStartswith data "http".data then "• **Type :** URL\n".data
    else if pyStartswith data "mailto:".data then "• **Type :** Email\n".data
    else if pyStartswith data "tel:".data then "• **Type :** Téléphone\n".data
    else if pyStartswith data "WIFI:".data then
      "• **Type :** Configuration WiFi\n".data ++
      (if pyContains data "S:".data then
        let ssid := (pySplit ";".data ((pySplit "S:".data data).getD 1 [])).getD 0 []
        "• **SSID :** ".data ++ ssid ++ "\n".data
      else [])
    else if pyStartswith data "BEGIN:VCARD".data then
      "• **Type :** Carte de visite (vCard)\n".data
    else "• **Type :** Texte\n".data
  analysis ++ "• **Longueur :** ".data ++ (toString data.length).data ++
    " caractères\n".data

theorem isPrefixOf_pair (c₁ c₂ : Char) (s : List Char) :
    ([c₁, c₂].isPrefixOf s) = true ↔ ∃ t, s = c₁ :: c₂ :: t := by
  cases s with
  | nil => simp [List.isPrefixOf]
  | cons d s' =>
      cases s' with
      | nil => simp [List.isPrefixOf]
      | cons e s'' =>
          constructor
          · intro h
            simp only [List.isPrefixOf, Bool.and_eq_true, beq_iff_eq] at h
            obtain ⟨h1, h2, -⟩ := h
            exact ⟨s'', by rw [← h1, ← h2]⟩
          · rintro ⟨t, ht⟩
            injection ht with h1 h2
            injection h2 with h2 h3
            simp [List.isPrefixOf, h1, h2]

theorem isPrefixOf_single (c : Char) (s : List Char) :
    ([c].isPrefixOf s) = true ↔ ∃ t, s = c :: t := by
  cases s with
  | nil => simp [List.isPrefixOf]
  | cons d s' =>
      constructor
      · intro h
        simp only [List.isPrefixOf, Bool.and_eq_true, beq_iff_eq] at h
        obtain ⟨h1, -⟩ := h
        exact ⟨s', by rw [← h1]⟩
      · rintro ⟨t, ht⟩
        injection ht with h1 h2
        simp [List.isPrefixOf, h1]

theorem firstOcc_cons (sep : List Char) (c : Char) (cs : List Char) :
    firstOcc sep (c :: cs) =
      if sep.isPrefixOf (c :: cs) then some 0 else (firstOcc sep cs).map (· + 1) := rfl

theorem firstOcc_single_none (c : Char) (s : List Char) :
    firstOcc [c] s = none ↔ c ∉ s := by
  induction s with
  | nil => simp [firstOcc]
  | cons d s' ih =>
      rw [firstOcc_cons]
      by_cases h : ([c].isPrefixOf (d :: s')) = true
      · rw [if_pos h]
        rcases (isPrefixOf_single c (d :: s')).mp h with ⟨t, ht⟩
        injection ht with h1 _
        subst h1
        simp
      · rw [if_neg h]
        have hne : c ≠ d := by
          intro hc; subst hc
          exact h ((isPrefixOf_single c (c :: s')).mpr ⟨s', rfl⟩)
        simp [Option.map_eq_none', ih, hne]

theorem firstOcc_single_append (c : Char) (a b : List Char) (hc : c ∉ a) :
    firstOcc [c] (a ++ c :: b) = some a.length := by
  induction a with
  | nil =>
      simp only [List.nil_append, firstOcc_cons]
      rw [if_pos ((isPrefixOf_single c (c :: b)).mpr ⟨b, rfl⟩)]
      rfl
  | cons d a' ih =>
      have hcd : c ≠ d := fun h => hc (h ▸ List.mem_cons_self d a')
      have hc' : c ∉ a' := fun h => hc (List.mem_cons_of_mem d h)
      rw [List.cons_append, firstOcc_cons, if_neg, ih hc']
      · rfl
      · intro hpre
        rcases (isPrefixOf_single c _).mp hpre with ⟨t, ht⟩
        injection ht with h1 _
        exact hcd h1.symm

theorem firstOcc_pair_append (c₁ c₂ : Char) (hne : c₁ ≠ c₂) (a b : List Char)
    (ha : firstOcc [c₁, c₂] a = none) :
    firstOcc [c₁, c₂] (a ++ c₁ :: c₂ :: b) = some a.length := by
  induction a with
  | nil =>
      simp only [List.nil_append, firstOcc_cons]
      rw [if_pos ((isPrefixOf_pair c₁ c₂ _).mpr ⟨b, rfl⟩)]
      rfl
  | cons d a' ih =>
      rw [firstOcc_cons] at ha
      by_cases hpre : ([c₁, c₂].isPrefixOf (d :: a')) = true
      · rw [if_pos hpre] at ha; cases ha
      · rw [if_neg hpre, Option.map_eq_none'] at ha
        rw [List.cons_append, firstOcc_cons, if_neg, ih ha]
        · rfl
        · intro hpre2
          rcases (isPrefixOf_pair c₁ c₂ _).mp hpre2 with ⟨t, ht⟩
          injection ht with h1 h2
          cases a' with
          | nil =>
              injection h2 with h3 _
              exact hne h3
          | cons e a'' =>
              injection h2 with h3 _
              exact hpre ((isPrefixOf_pair c₁ c₂ _).mpr ⟨a'', by rw [← h1, ← h3]⟩)

theorem firstOcc_pair_shift (c₁ c₂ : Char) (s : List Char) (d : Char) (u : List Char)
    (hs : firstOcc [c₁, c₂] s = none) (hd : d ≠ c₂) :
    firstOcc [c₁, c₂] (s ++ d :: u) =
      (firstOcc [c₁, c₂] (d :: u)).map (· + s.length) := by
  induction s with
  | nil =>
      simp only [List.nil_append, List.length_nil]
      cases firstOcc [c₁, c₂] (d :: u) <;> simp
  | cons e s' ih =>
      rw [firstOcc_cons] at hs
      by_cases hpre : ([c₁, c₂].isPrefixOf (e :: s')) = true
      · rw [if_pos hpre] at hs; cases hs
      · rw [if_neg hpre, Option.map_eq_none'] at hs
        rw [List.cons_append, firstOcc_cons, if_neg, ih hs]
        · cases firstOcc [c₁, c₂] (d :: u) with
          | none => rfl
          | some k =>
              show some (k + s'.length + 1) = some (k + (s'.length + 1))
              congr 1
        · intro hpre2
          rcases (isPrefixOf_pair c₁ c₂ _).mp hpre2 with ⟨t, ht⟩
          injection ht with h1 h2
          cases s' with
          | nil =>
              injection h2 with h3 _
              exact hd h3
          | cons f s'' =>
              injection h2 with h3 _
              exact hpre ((isPrefixOf_pair c₁ c₂ _).mpr ⟨s'', by rw [← h1, ← h3]⟩)

theorem isPrefixOf_length_le (sep s : List Char) (h : sep.isPrefixOf s = true) :
    sep.length ≤ s.length :=
  (List.isPrefixOf_iff_prefix.mp h).length_le

theorem firstOcc_bound (sep : List Char) :
    ∀ (s : List Char) (i : ℕ), firstOcc sep s = some i → i + sep.length ≤ s.length := by
  intro s
  induction s with
  | nil => intro i h; cases h
  | cons c cs ih =>
      intro i h
      rw [firstOcc_cons] at h
      by_cases hpre : (sep.isPrefixOf (c :: cs)) = true
      · rw [if_pos hpre] at h
        injection h with h1
        subst h1
        simpa using isPrefixOf_length_le sep (c :: cs) hpre
      · rw [if_neg hpre, Option.map_eq_some'] at h
        rcases h with ⟨j, hj, rfl⟩
        have := ih j hj
        simp only [List.length_cons]
        omega

theorem pySplitFuel_congr (sep : List Char) (hsep : sep ≠ []) :
    ∀ (f₁ f₂ : ℕ) (s : List Char), s.length < f₁ → s.length < f₂ →
      pySplitFuel sep f₁ s = pySplitFuel sep f₂ s := by
  intro f₁
  induction f₁ with
  | zero => intro f₂ s h1 _; exact absurd h1 (Nat.not_lt_zero _)
  | succ f ih =>
      intro f₂ s h1 h2
      cases f₂ with
      | zero => exact absurd h2 (Nat.not_lt_zero _)
      | succ f' =>
          cases hocc : firstOcc sep s with
          | none => simp only [pySplitFuel, hocc]
          | some i =>
              simp only [pySplitFuel, hocc]
              have hb := firstOcc_bound sep s i hocc
              have hsep1 : 1 ≤ sep.length := by
                cases sep with
                | nil => exact absurd rfl hsep
                | cons _ _ => simp
              have hslen : (s.drop (i + sep.length)).length < s.length := by
                rw [List.length_drop]
                omega
              rw [ih f' _ (by omega) (by omega)]

theorem pySplit_no_occ (sep s : List Char) (h : firstOcc sep s = none) :
    pySplit sep s = [s] := by
  unfold pySplit
  simp only [pySplitFuel, h]

theorem pySplit_occ (sep : List Char) (hsep : sep ≠ []) (s : List Char) (i : ℕ)
    (h : firstOcc sep s = some i) :
    pySplit sep s = s.take i :: pySplit sep (s.drop (i + sep.length)) := by
  have hb := firstOcc_bound sep s i h
  have hsep1 : 1 ≤ sep.length := by
    cases sep with
    | nil => exact absurd rfl hsep
    | cons _ _ => simp
  have hstep : pySplitFuel sep (s.length + 1) s
      = s.take i :: pySplitFuel sep s.length (s.drop (i + sep.length)) := by
    simp only [pySplitFuel, h]
  show pySplitFuel sep (s.length + 1) s = _
  rw [hstep, pySplitFuel_congr sep hsep s.length ((s.drop (i + sep.length)).length + 1)
      (s.drop (i + sep.length)) (by rw [List.length_drop]; omega) (by omega)]
  rfl

theorem startswith_shape (s : List Char) (c : Char) (pre : List Char)
    (h : pyStartswith s (c :: pre) = true) : ∃ t, s = c :: t := by
  cases s with
  | nil => simp [pyStartswith, List.isPrefixOf] at h
  | cons e s' =>
      have h2 : c = e ∧ pre.isPrefixOf s' = true := by
        simpa [pyStartswith, List.isPrefixOf] using h
      exact ⟨s', by rw [h2.1]⟩

theorem startswith_heads (s : List Char) (c d : Char) (p q : List Char)
    (h1 : pyStartswith s (c :: p) = true) (h2 : pyStartswith s (d :: q) = true) :
    c = d := by
  rcases startswith_shape s c p h1 with ⟨t, rfl⟩
  have h3 : d = c ∧ q.isPrefixOf t = true := by
    simpa [pyStartswith, List.isPrefixOf] using h2
  exact h3.1.symm

theorem startswith_false (s : List Char) (c d : Char) (p q : List Char)
    (hW : pyStartswith s (c :: p) = true) (hne : d ≠ c) :
    pyStartswith s (d :: q) = false := by
  cases hres : pyStartswith s (d :: q) with
  | false => rfl
  | true => exact absurd (startswith_heads s d c q p hres hW) hne

/-- The URL branch of analyze_qr_content. -/
theorem aqc_http (data : List Char) (hw : pyStartswith data "http".data = true) :
    analyze_qr_content data = "• **Type :** URL\n".data ++ "• **Longueur :** ".data ++
      (toString data.length).data ++ " caractères\n".data := by
  simp [analyze_qr_content, hw, List.append_assoc]

/-- The Email branch of analyze_qr_content. -/
theorem aqc_mailto (data : List Char) (hw : pyStartswith data "mailto:".data = true) :
    analyze_qr_content data = "• **Type :** Email\n".data ++ "• **Longueur :** ".data ++
      (toString data.length).data ++ " caractères\n".data := by
  have h1 : pyStartswith data "http".data = false :=
    startswith_false data 'm' 'h' "ailto:".data "ttp".data hw (by decide)
  simp [analyze_qr_content, h1, hw, List.append_assoc]

/-- The Téléphone branch of analyze_qr_content. -/
theorem aqc_tel (data : List Char) (hw : pyStartswith data "tel:".data = true) :
    analyze_qr_content data = "• **Type :** Téléphone\n".data ++ "• **Longueur :** ".data ++
      (toString data.length).data ++ " caractères\n".data := by
  have h1 : pyStartswith data "http".data = false :=
    startswith_false data 't' 'h' "el:".data "ttp".data hw (by decide)
  have h2 : pyStartswith data "mailto:".data = false :=
    startswith_false data 't' 'm' "el:".data "ailto:".data hw (by decide)
  simp [analyze_qr_content, h1, h2, hw, List.append_assoc]

/-- The vCard branch of analyze_qr_content. -/
theorem aqc_vcard (data : List Char) (hw : pyStartswith data "BEGIN:VCARD".data = true) :
    analyze_qr_content data = "• **Type :** Carte de visite (vCard)\n".data ++
      "• **Longueur :** ".data ++ (toString data.length).data ++ " caractères\n".data := by
  have h1 : pyStartswith data "http".data = false :=
    startswith_false data 'B' 'h' "EGIN:VCARD".data "ttp".data hw (by decide)
  have h2 : pyStartswith data "mailto:".data = false :=
    startswith_false data 'B' 'm' "EGIN:VCARD".data "ailto:".data hw (by decide)
  have h3 : pyStartswith data "tel:".data = false :=
    startswith_false data 'B' 't' "EGIN:VCARD".data "el:".data hw (by decide)
  have h4 : pyStartswith data "WIFI:".data = false :=
    startswith_false data 'B' 'W' "EGIN:VCARD".data "IFI:".data hw (by decide)
  simp [analyze_qr_content, h1, h2, h3, h4, hw, List.append_assoc]

/-- The generic Texte fallback of analyze_qr_content. -/
theorem aqc_texte (data : List Char)
    (h1 : pyStartswith data "http".data = false)
    (h2 : pyStartswith data "mailto:".data = false)
    (h3 : pyStartswith data "tel:".data = false)
    (h4 : pyStartswith data "WIFI:".data = false)
    (h5 : pyStartswith data "BEGIN:VCARD".data = false) :
    analyze_qr_content data = "• **Type :** Texte\n".data ++
      "• **Longueur :** ".data ++ (toString data.length).data ++ " caractères\n".data := by
  simp [analyze_qr_content, h1, h2, h3, h4, h5, List.append_assoc]

/-- The WiFi branch when the payload has no 'S:' at all: the type line is
produced but no SSID line. -/
theorem aqc_wifi_nossid (data : List Char)
    (hw : pyStartswith data "WIFI:".data = true)
    (hnc : pyContains data "S:".data = false) :
    analyze_qr_content data = "• **Type :** Configuration WiFi\n".data ++
      "• **Longueur :** ".data ++ (toString data.length).data ++ " caractères\n".data := by
  have h1 : pyStartswith data "http".data = false :=
    startswith_false data 'W' 'h' "IFI:".data "ttp".data hw (by decide)
  have h2 : pyStartswith data "mailto:".data = false :=
    startswith_false data 'W' 'm' "IFI:".data "ailto:".data hw (by decide)
  have h3 : pyStartswith data "tel:".data = false :=
    startswith_false data 'W' 't' "IFI:".data "el:".data hw (by decide)
  simp [analyze_qr_content, h1, h2, h3, hw, hnc, List.append_assoc]

/-- The WiFi branch with an 'S:' field: writing the payload as
a ++ "S:" ++ s ++ t where a holds no "S:" (so this is the first
occurrence), s holds no "S:" and no ';', and t is empty or starts with
';' or with "S:", the printed SSID is exactly s — the segment after the
first "S:" truncated at the next ';' or the next "S:", whichever comes
first. -/
theorem aqc_wifi_ssid (a s t : List Char)
    (hw : pyStartswith (a ++ 'S' :: ':' :: (s ++ t)) "WIFI:".data = true)
    (ha : firstOcc "S:".data a = none)
    (hs : firstOcc "S:".data s = none)
    (hsemi : firstOcc ";".data s = none)
    (ht : t = [] ∨ (∃ u, t = ';' :: u) ∨ (∃ u, t = 'S' :: ':' :: u)) :
    analyze_qr_content (a ++ 'S' :: ':' :: (s ++ t)) =
      "• **Type :** Configuration WiFi\n".data ++ "• **SSID :** ".data ++ s ++ "\n".data ++
      "• **Longueur :** ".data ++ (toString (a ++ 'S' :: ':' :: (s ++ t)).length).data ++
      " caractères\n".data := by
  have hfo : firstOcc "S:".data (a ++ 'S' :: ':' :: (s ++ t)) = some a.length :=
    firstOcc_pair_append 'S' ':' (by decide) a (s ++ t) ha
  have hcont : pyContains (a ++ 'S' :: ':' :: (s ++ t)) "S:".data = true := by
    unfold pyContains
    rw [hfo]
    rfl
  have htake : (a ++ 'S' :: ':' :: (s ++ t)).take a.length = a :=
    List.take_left a ('S' :: ':' :: (s ++ t))
  have hdrop : (a ++ 'S' :: ':' :: (s ++ t)).drop (a.length + "S:".data.length) = s ++ t :=
    List.drop_append 2
  have houter : pySplit "S:".data (a ++ 'S' :: ':' :: (s ++ t))
      = a :: pySplit "S:".data (s ++ t) := by
    rw [pySplit_occ "S:".data (by decide) _ a.length hfo, htake, hdrop]
  have hsemi_not : ';' ∉ s := (firstOcc_single_none ';' s).mp hsemi
  have hseg : ∃ w, (pySplit "S:".data (s ++ t)).getD 0 []
      = s ++ w ∧ (w = [] ∨ ∃ u, w = ';' :: u) := by
    rcases ht with rfl | ⟨u, rfl⟩ | ⟨u, rfl⟩
    · rw [List.append_nil, pySplit_no_occ _ _ hs]
      refine ⟨[], ?_, Or.inl rfl⟩
      simp
    · have hshift : firstOcc "S:".data (s ++ ';' :: u)
          = (firstOcc "S:".data (';' :: u)).map (· + s.length) :=
        firstOcc_pair_shift 'S' ':' s ';' u hs (by decide)
      have hsc : firstOcc "S:".data (';' :: u) = (firstOcc "S:".data u).map (· + 1) := by
        rw [firstOcc_cons, if_neg]
        intro hp
        rcases (isPrefixOf_pair 'S' ':' _).mp hp with ⟨w2, hw2⟩
        injection hw2 with hx _
        exact absurd hx (by decide)
      cases hu : firstOcc "S:".data u with
      | none =>
          have hnone : firstOcc "S:".data (s ++ ';' :: u) = none := by
            rw [hshift, hsc, hu]; rfl
          rw [pySplit_no_occ _ _ hnone]
          exact ⟨';' :: u, rfl, Or.inr ⟨u, rfl⟩⟩
      | some k =>
          have hocc2 : firstOcc "S:".data (s ++ ';' :: u) = some (k + 1 + s.length) := by
            rw [hshift, hsc, hu]; rfl
          rw [pySplit_occ "S:".data (by decide) _ _ hocc2]
          refine ⟨';' :: u.take k, ?_, Or.inr ⟨u.take k, rfl⟩⟩
          show (s ++ ';' :: u).take (k + 1 + s.length) = s ++ ';' :: u.take k
          have hidx : k + 1 + s.length = s.length + (k + 1) := by omega
          rw [hidx]
          exact List.take_append (k + 1)
    · have hocc2 : firstOcc "S:".data (s ++ 'S' :: ':' :: u) = some s.length :=
        firstOcc_pair_append 'S' ':' (by decide) s u hs
      rw [pySplit_occ "S:".data (by decide) _ _ hocc2]
      refine ⟨[], ?_, Or.inl rfl⟩
      show (s ++ 'S' :: ':' :: u).take s.length = s ++ []
      rw [List.append_nil]
      exact List.take_left s _
  rcases hseg with ⟨w, hw1, hw2⟩
  have hssid : (pySplit ";".data
      ((pySplit "S:".data (a ++ 'S' :: ':' :: (s ++ t))).getD 1 [])).getD 0 [] = s := by
    rw [houter, List.getD_cons_succ, hw1]
    rcases hw2 with rfl | ⟨u, rfl⟩
    · rw [List.append_nil, pySplit_no_occ _ _ hsemi]
      rfl
    · have hofo : firstOcc ";".data (s ++ ';' :: u) = some s.length :=
        firstOcc_single_append ';' s u hsemi_not
      rw [pySplit_occ ";".data (by decide) _ _ hofo]
      show (s ++ ';' :: u).take s.length = s
      exact List.take_left s _
  have h1 : pyStartswith (a ++ 'S' :: ':' :: (s ++ t)) "http".data = false :=
    startswith_false _ 'W' 'h' "IFI:".data "ttp".data hw (by decide)
  have h2 : pyStartswith (a ++ 'S' :: ':' :: (s ++ t)) "mailto:".data = false :=
    startswith_false _ 'W' 'm' "IFI:".data "ailto:".data hw (by decide)
  have h3 : pyStartswith (a ++ 'S' :: ':' :: (s ++ t)) "tel:".data = false :=
    startswith_false _ 'W' 't' "IFI:".data "el:".data hw (by decide)
  simp [analyze_qr_content, h1, h2, h3, hw, hcont, List.append_assoc]
  simpa using hssid

/-- The deduplication key of a raw detection, as a function of the
detection alone (it does not depend on the variant ordinal). -/
def objKey (o : ZbarObj) : String × String :=
  (utf8DecodeIgnore o.data, get_barcode_type_name o.type)

theorem keyOf_mkEntry (i : ℕ) (obj : ZbarObj) : keyOf (mkEntry i obj) = rawKey (i, obj) := rfl

theorem rawKey_eq_objKey (p : ℕ × ZbarObj) : rawKey p = objKey p.2 := rfl

theorem any_key (acc : List CodeEntry) (d t : String) :
    (acc.any fun e => e.data == d && e.type == t) = true ↔ (d, t) ∈ acc.map keyOf := by
  simp only [List.any_eq_true, Bool.and_eq_true, beq_iff_eq, List.mem_map, keyOf,
    Prod.mk.injEq]

theorem mem_insertIfNew {acc : List CodeEntry} {p : ℕ × ZbarObj} {e : CodeEntry} :
    e ∈ insertIfNew acc p ↔
      e ∈ acc ∨ (rawKey p ∉ acc.map keyOf ∧ e = mkEntry p.1 p.2) := by
  unfold insertIfNew
  by_cases h : (acc.any fun x => x.data == utf8DecodeIgnore p.2.data &&
      x.type == get_barcode_type_name p.2.type) = true
  · rw [if_pos h]
    have hk : rawKey p ∈ acc.map keyOf := (any_key acc _ _).mp h
    simp [hk]
  · rw [if_neg h]
    have hk : rawKey p ∉ acc.map keyOf := fun hc => h ((any_key acc _ _).mpr hc)
    simp [hk, List.mem_append]

theorem keys_insertIfNew {acc : List CodeEntry} {p : ℕ × ZbarObj} {k : String × String} :
    k ∈ (insertIfNew acc p).map keyOf ↔ k ∈ acc.map keyOf ∨ k = rawKey p := by
  unfold insertIfNew
  by_cases h : (acc.any fun x => x.data == utf8DecodeIgnore p.2.data &&
      x.type == get_barcode_type_name p.2.type) = true
  · rw [if_pos h]
    have hk : rawKey p ∈ acc.map keyOf := (any_key acc _ _).mp h
    constructor
    · exact Or.inl
    · rintro (h1 | rfl)
      · exact h1
      · exact hk
  · rw [if_neg h]
    simp [List.map_append, keyOf_mkEntry]

theorem pairwise_insertIfNew {acc : List CodeEntry} {p : ℕ × ZbarObj}
    (h : acc.Pairwise fun a b => keyOf a ≠ keyOf b) :
    (insertIfNew acc p).Pairwise fun a b => keyOf a ≠ keyOf b := by
  unfold insertIfNew
  by_cases hc : (acc.any fun x => x.data == utf8DecodeIgnore p.2.data &&
      x.type == get_barcode_type_name p.2.type) = true
  · rw [if_pos hc]; exact h
  · rw [if_neg hc]
    have hk : rawKey p ∉ acc.map keyOf := fun hm => hc ((any_key acc _ _).mpr hm)
    refine List.pairwise_append.mpr ⟨h, List.pairwise_singleton _ _, ?_⟩
    intro a ha b hb
    have hb1 : b = mkEntry p.1 p.2 := by simpa using hb
    subst hb1
    intro hkey
    exact hk (List.mem_map.mpr ⟨a, ha, by rw [hkey, keyOf_mkEntry]⟩)

theorem pairwise_foldl_insert (raw : List (ℕ × ZbarObj)) :
    ∀ acc : List CodeEntry, acc.Pairwise (fun a b => keyOf a ≠ keyOf b) →
      (raw.foldl insertIfNew acc).Pairwise fun a b => keyOf a ≠ keyOf b := by
  induction raw with
  | nil => intro acc h; exact h
  | cons p ps ih => intro acc h; exact ih _ (pairwise_insertIfNew h)

theorem keys_foldl_insert (raw : List (ℕ × ZbarObj)) :
    ∀ (acc : List CodeEntry) (k : String × String),
      k ∈ (raw.foldl insertIfNew acc).map keyOf ↔
        k ∈ acc.map keyOf ∨ ∃ p ∈ raw, rawKey p = k := by
  induction raw with
  | nil => intro acc k; simp
  | cons q qs ih =>
      intro acc k
      rw [List.foldl_cons, ih, keys_insertIfNew]
      constructor
      · rintro ((h1 | rfl) | ⟨p, hp, rfl⟩)
        · exact Or.inl h1
        · exact Or.inr ⟨q, List.mem_cons_self q qs, rfl⟩
        · exact Or.inr ⟨p, List.mem_cons_of_mem q hp, rfl⟩
      · rintro (h1 | ⟨p, hp, rfl⟩)
        · exact Or.inl (Or.inl h1)
        · rcases List.mem_cons.mp hp with rfl | hp2
          · exact Or.inl (Or.inr rfl)
          · exact Or.inr ⟨p, hp2, rfl⟩

/-- Characterization of the folded duplicate-check-and-append loop: the
result extends the accumulator with exactly the detections whose key is
neither in the accumulator nor carried by any earlier detection of the
stream — the first-encountered detection of each new key, turned into an
entry, in stream order. -/
theorem mem_foldl_insert (raw : List (ℕ × ZbarObj)) :
    ∀ (acc : List CodeEntry) (e : CodeEntry),
      e ∈ raw.foldl insertIfNew acc ↔
        e ∈ acc ∨ ∃ l₁ p l₂, raw = l₁ ++ p :: l₂ ∧ e = mkEntry p.1 p.2 ∧
          rawKey p ∉ acc.map keyOf ∧ ∀ q ∈ l₁, rawKey q ≠ rawKey p := by
  induction raw with
  | nil =>
      intro acc e
      simp only [List.foldl_nil]
      constructor
      · exact Or.inl
      · rintro (he | ⟨l₁, p, l₂, hnil, _⟩)
        · exact he
        · cases l₁ <;> simp_all
  | cons q qs ih =>
      intro acc e
      rw [List.foldl_cons, ih, mem_insertIfNew]
      constructor
      · rintro ((he | ⟨hknotin, rfl⟩) | ⟨l₁, p, l₂, hqs, rfl, hknot, hfirst⟩)
        · exact Or.inl he
        · exact Or.inr ⟨[], q, qs, rfl, rfl, hknotin, by simp⟩
        · have h1 : rawKey p ∉ acc.map keyOf :=
            fun hc => hknot (keys_insertIfNew.mpr (Or.inl hc))
          have h2 : rawKey p ≠ rawKey q :=
            fun hc => hknot (keys_insertIfNew.mpr (Or.inr hc))
          refine Or.inr ⟨q :: l₁, p, l₂, by rw [hqs]; rfl, rfl, h1, ?_⟩
          intro r hr
          rcases List.mem_cons.mp hr with rfl | hr2
          · exact Ne.symm h2
          · exact hfirst r hr2
      · rintro (he | ⟨l₁, p, l₂, hraw, rfl, hknot, hfirst⟩)
        · exact Or.inl (Or.inl he)
        · cases l₁ with
          | nil =>
              simp only [List.nil_append] at hraw
              injection hraw with h1 h2
              subst h1; subst h2
              exact Or.inl (Or.inr ⟨hknot, rfl⟩)
          | cons r l₁t =>
              simp only [List.cons_append] at hraw
              injection hraw with h1 hqs
              subst h1
              have hq_ne : rawKey q ≠ rawKey p :=
                hfirst q (List.mem_cons_self q l₁t)
              refine Or.inr ⟨l₁t, p, l₂, hqs, rfl, ?_, ?_⟩
              · intro hc
                rcases keys_insertIfNew.mp hc with h1 | h1
                · exact hknot h1
                · exact hq_ne h1.symm
              · intro s hs
                exact hfirst s (List.mem_cons_of_mem q hs)

theorem foldl_listFlat (f : α → List β) (g : γ → β → γ) :
    ∀ (l : List α) (init : γ),
      (listFlat f l).foldl g init = l.foldl (fun acc a => (f a).foldl g acc) init := by
  intro l
  induction l with
  | nil => intro init; rfl
  | cons a as ih => intro init; simp [listFlat, List.foldl_append, ih]

/-- The nested per-variant, per-detection loop equals a single fold over
the flattened detection stream. -/
theorem aggregate_eq_flat (env : Env) (vs : List Img) :
    aggregate env vs = (flatRaw env vs).foldl insertIfNew [] := by
  unfold aggregate flatRaw
  rw [foldl_listFlat]
  simp only [List.foldl_map]

theorem decode_codes_fail (env : Env) (data : List ℕ) (h : env.imdecode data = none) :
    decode_codes env data =
      { error := some "Impossible de lire l'image"
      , codes_found := none, image_info := none, total_codes := none } := by
  simp [decode_codes, h]

theorem decode_codes_ok (env : Env) (data : List ℕ) (img : Img)
    (h : env.imdecode data = some img) :
    decode_codes env data =
      { error := none
      , codes_found := some (aggregate env (preprocess_image img))
      , image_info := some
          { dimensions := toString (imWidth img) ++ "x" ++ toString (imHeight img)
          , channels := imChannels img }
      , total_codes := some (aggregate env (preprocess_image img)).length } := by
  simp [decode_codes, h]

theorem map_rawKey_flatRaw (env : Env) :
    ∀ (n : ℕ) (vs : List Img),
      (listFlat (fun p => (scanObjs env p.2).map fun o => (p.1, o)) (enumF n vs)).map rawKey
        = listFlat (fun im => (scanObjs env im).map objKey) vs := by
  intro n vs
  induction vs generalizing n with
  | nil => rfl
  | cons v vt ih =>
      simp only [enumF, listFlat, List.map_append, List.map_map]
      rw [ih]
      rfl

theorem listFlat_sublist (f : α → List β) {l₁ l₂ : List α} (h : l₁.Sublist l₂) :
    (listFlat f l₁).Sublist (listFlat f l₂) := by
  induction h with
  | slnil => exact List.Sublist.refl _
  | cons a h ih => exact ih.trans (List.sublist_append_right _ _)
  | cons₂ a h ih => exact ih.append_left (f a)

/-- A key appears among the surviving entries exactly when some raw
detection of the stream carries it. -/
theorem keys_aggregate (env : Env) (vs : List Img) (k : String × String) :
    k ∈ (aggregate env vs).map keyOf ↔
      k ∈ listFlat (fun im => (scanObjs env im).map objKey) vs := by
  rw [aggregate_eq_flat, keys_foldl_insert]
  have hmap : (flatRaw env vs).map rawKey
      = listFlat (fun im => (scanObjs env im).map objKey) vs := map_rawKey_flatRaw env 0 vs
  constructor
  · rintro (h1 | ⟨p, hp, rfl⟩)
    · simp at h1
    · have h2 : rawKey p ∈ (flatRaw env vs).map rawKey := List.mem_map.mpr ⟨p, hp, rfl⟩
      rw [hmap] at h2
      exact h2
  · intro h1
    rw [← hmap] at h1
    rcases List.mem_map.mp h1 with ⟨p, hp, rfl⟩
    exact Or.inr ⟨p, hp, rfl⟩

/-! Concrete fixtures used by the witnesses below. -/

/-- A small 3-channel color image. -/
def imgW : Img := Img.color 2 3 3 (fun _ _ _ => 7)

/-- A small grayscale (2-dimensional) image. -/
def grayImgW : Img := Img.gray 2 2 (fun _ _ => 5)

/-- A QR detection with payload "hi" and quality 10. -/
def objA : ZbarObj :=
  { data := [104, 105], type := ZBarSymbol.QRCODE, quality := some 10
  , rect := { left := 1, top := 2, width := 3, height := 4 }
  , polygon := [(0, 0), (1, 1)] }

/-- A detection with the same payload and symbology as objA but a higher
quality score and a different position. -/
def objB : ZbarObj :=
  { data := [104, 105], type := ZBarSymbol.QRCODE, quality := some 99
  , rect := { left := 9, top := 9, width := 9, height := 9 }
  , polygon := [] }

/-- A detection whose payload byte 0xFF is not valid UTF-8. -/
def objBad : ZbarObj :=
  { data := [255], type := ZBarSymbol.QRCODE, quality := none
  , rect := { left := 0, top := 0, width := 0, height := 0 }
  , polygon := [] }

/-- An environment whose image decoder rejects every buffer. -/
def envNone : Env :=
  { imdecode := fun _ => none, pyzbarDecode := fun _ => some [] }

/-- An environment that decodes every buffer but finds no symbols. -/
def envEmpty : Env :=
  { imdecode := fun _ => some imgW, pyzbarDecode := fun _ => some [] }

/-- An environment whose scanner raises on every variant. -/
def envThrow : Env :=
  { imdecode := fun _ => some imgW, pyzbarDecode := fun _ => none }

/-- An environment whose scanner reports the same logical code twice per
variant, with different quality scores. -/
def envDup : Env :=
  { imdecode := fun _ => some imgW, pyzbarDecode := fun _ => some [objA, objB] }

/-- An environment whose scanner reports a detection with undecodable
payload bytes. -/
def envBad : Env :=
  { imdecode := fun _ => some imgW, pyzbarDecode := fun _ => some [objBad] }

/-- Claim C1: the report of decode_codes never holds two entries with the
same deduplication key (payload text, symbology name), and an entry is in
the report exactly when it is the entry of the first raw detection of its
key in the flattened detection stream — lowest variant ordinal first,
earliest within a variant's detection order, with no condition on quality
scores. -/
theorem decode_codes_dedup_first_wins (env : Env) (data : List ℕ) (img : Img)
    (h : env.imdecode data = some img) :
    List.Pairwise (fun a b => keyOf a ≠ keyOf b)
      (((decode_codes env data).codes_found).getD []) ∧
    ∀ e : CodeEntry, e ∈ ((decode_codes env data).codes_found).getD [] ↔
      ∃ l₁ p l₂, flatRaw env (preprocess_image img) = l₁ ++ p :: l₂ ∧
        e = mkEntry p.1 p.2 ∧ ∀ q ∈ l₁, rawKey q ≠ rawKey p := by
  rw [decode_codes_ok env data img h]
  constructor
  · show List.Pairwise _ (aggregate env (preprocess_image img))
    rw [aggregate_eq_flat]
    exact pairwise_foldl_insert _ [] List.Pairwise.nil
  · intro e
    show e ∈ aggregate env (preprocess_image img) ↔ _
    rw [aggregate_eq_flat, mem_foldl_insert]
    constructor
    · rintro (h1 | ⟨l₁, p, l₂, hr, he, _, hf⟩)
      · simp at h1
      · exact ⟨l₁, p, l₂, hr, he, hf⟩
    · rintro ⟨l₁, p, l₂, hr, he, hf⟩
      exact Or.inr ⟨l₁, p, l₂, hr, he, by simp, hf⟩

theorem decode_codes_dedup_first_wins_witness :
    (List.Pairwise (fun a b => keyOf a ≠ keyOf b)
      (((decode_codes envDup []).codes_found).getD []) ∧
     ∀ e : CodeEntry, e ∈ ((decode_codes envDup []).codes_found).getD [] ↔
       ∃ l₁ p l₂, flatRaw envDup (preprocess_image imgW) = l₁ ++ p :: l₂ ∧
         e = mkEntry p.1 p.2 ∧ ∀ q ∈ l₁, rawKey q ≠ rawKey p) ∧
    (decode_codes envDup []).codes_found = some [mkEntry 0 objA] :=
  ⟨decode_codes_dedup_first_wins envDup [] imgW rfl, by decide⟩

/-- Claim C2: decode_codes yields an error exactly when the byte buffer is
not decodable as an image; on any decodable buffer it yields a success
report, and when no variant contributes any detection that report has an
empty codes_found list and total_codes zero. -/
theorem decode_codes_error_iff_unreadable (env : Env) (data : List ℕ) :
    ((decode_codes env data).error.isSome ↔ env.imdecode data = none) ∧
    (∀ img, env.imdecode data = some img →
      (decode_codes env data).error = none ∧
      (flatRaw env (preprocess_image img) = [] →
        (decode_codes env data).codes_found = some [] ∧
        (decode_codes env data).total_codes = some 0)) := by
  constructor
  · constructor
    · intro hs
      cases h : env.imdecode data with
      | none => rfl
      | some img =>
          rw [decode_codes_ok env data img h] at hs
          simp at hs
    · intro h
      rw [decode_codes_fail env data h]
      rfl
  · intro img h
    rw [decode_codes_ok env data img h]
    refine ⟨rfl, ?_⟩
    intro hflat
    constructor
    · show some (aggregate env (preprocess_image img)) = some []
      rw [aggregate_eq_flat, hflat]
      rfl
    · show some (aggregate env (preprocess_image img)).length = some 0
      rw [aggregate_eq_flat, hflat]
      rfl

theorem decode_codes_error_iff_unreadable_witness :
    (decode_codes envNone []).error.isSome ∧
    (decode_codes envEmpty []).error = none ∧
    (decode_codes envEmpty []).codes_found = some [] ∧
    (decode_codes envEmpty []).total_codes = some 0 ∧
    (decode_codes envThrow []).codes_found = some [] :=
  ⟨(decode_codes_error_iff_unreadable envNone []).1.mpr rfl,
   ((decode_codes_error_iff_unreadable envEmpty []).2 imgW rfl).1,
   (((decode_codes_error_iff_unreadable envEmpty []).2 imgW rfl).2 (by decide)).1,
   (((decode_codes_error_iff_unreadable envEmpty []).2 imgW rfl).2 (by decide)).2,
   (((decode_codes_error_iff_unreadable envThrow []).2 imgW rfl).2 (by decide)).1⟩

/-- Claim C3: preprocess_image always yields exactly five variants, in the
fixed order original, grayscale (identity when the input is already
2-dimensional), histogram equalization, adaptive threshold with block 11
and constant 2, and Otsu threshold; every variant keeps the original
width and height. -/
theorem preprocess_image_five_variants (img : Img) :
    (preprocess_image img).length = 5 ∧
    preprocess_image img = [img, grayOf img, equalizeHist (grayOf img),
      adaptiveThreshold (grayOf img) 255 11 2, otsuThreshold (grayOf img)] ∧
    (∀ v ∈ preprocess_image img, imWidth v = imWidth img ∧ imHeight v = imHeight img) ∧
    (imNdim img ≠ 3 → (preprocess_image img).get? 1 = some img) := by
  refine ⟨rfl, rfl, ?_, ?_⟩
  · intro v hv
    simp only [preprocess_image, List.mem_cons, List.not_mem_nil, or_false] at hv
    rcases hv with rfl | rfl | rfl | rfl | rfl
    · exact ⟨rfl, rfl⟩
    · exact ⟨grayOf_width img, grayOf_height img⟩
    · exact ⟨(equalizeHist_width _).trans (grayOf_width img),
             (equalizeHist_height _).trans (grayOf_height img)⟩
    · exact ⟨(adaptiveThreshold_width _ _ _ _).trans (grayOf_width img),
             (adaptiveThreshold_height _ _ _ _).trans (grayOf_height img)⟩
    · exact ⟨(otsuThreshold_width _).trans (grayOf_width img),
             (otsuThreshold_height _).trans (grayOf_height img)⟩
  · intro hnd
    show some (grayOf img) = some img
    unfold grayOf
    rw [if_neg hnd]

theorem preprocess_image_five_variants_witness :
    (preprocess_image grayImgW).length = 5 ∧
    (preprocess_image grayImgW).get? 1 = some grayImgW :=
  ⟨(preprocess_image_five_variants grayImgW).1,
   (preprocess_image_five_variants grayImgW).2.2.2 (by decide)⟩

/-- Claim C4 counterexample: the source converts payload bytes with
errors='ignore', which drops the invalid byte rather than replacing it:
on a detection whose payload is the single invalid byte 0xFF the report
entry's text is "", whereas the replacement-based conversion the claim
describes yields the replacement character, and the two differ. -/
theorem payload_ignore_not_replace_cex :
    (decode_codes envBad []).codes_found = some [mkEntry 0 objBad] ∧
    (mkEntry 0 objBad).data = "" ∧
    utf8DecodeReplace [255] = "�" ∧
    ("" : String) ≠ "�" :=
  ⟨by decide, by decide, by decide, by decide⟩

/-- Claim C4 (amended): every report entry is the entry built from a raw
detection of the stream — its payload text being the errors='ignore'
conversion of the raw bytes, in which invalid byte sequences are dropped —
and the key of every raw detection, undecodable payload or not, appears
in the report: text conversion never fails a detection or the pipeline. -/
theorem payload_conversion_lossy_ignore (env : Env) (data : List ℕ) (img : Img)
    (h : env.imdecode data = some img) :
    (∀ e ∈ ((decode_codes env data).codes_found).getD [],
       ∃ p ∈ flatRaw env (preprocess_image img), e = mkEntry p.1 p.2) ∧
    (∀ p ∈ flatRaw env (preprocess_image img),
       ∃ e ∈ ((decode_codes env data).codes_found).getD [],
         e.data = utf8DecodeIgnore p.2.data ∧
         e.type = get_barcode_type_name p.2.type) := by
  rw [decode_codes_ok env data img h]
  constructor
  · intro e he
    have he2 : e ∈ (flatRaw env (preprocess_image img)).foldl insertIfNew [] := by
      rw [← aggregate_eq_flat]
      exact he
    rcases (mem_foldl_insert (flatRaw env (preprocess_image img)) [] e).mp he2 with
      h1 | ⟨l₁, p, l₂, hr, he3, _, _⟩
    · simp at h1
    · exact ⟨p, by rw [hr]; exact List.mem_append_right _ (List.mem_cons_self _ _), he3⟩
  · intro p hp
    have hk : rawKey p ∈ (aggregate env (preprocess_image img)).map keyOf := by
      rw [aggregate_eq_flat, keys_foldl_insert]
      exact Or.inr ⟨p, hp, rfl⟩
    rcases List.mem_map.mp hk with ⟨e, he, hke⟩
    exact ⟨e, he, congrArg Prod.fst hke, congrArg Prod.snd hke⟩

theorem payload_conversion_lossy_ignore_witness :
    (∀ e ∈ ((decode_codes envBad []).codes_found).getD [],
       ∃ p ∈ flatRaw envBad (preprocess_image imgW), e = mkEntry p.1 p.2) ∧
    (∀ p ∈ flatRaw envBad (preprocess_image imgW),
       ∃ e ∈ ((decode_codes envBad []).codes_found).getD [],
         e.data = utf8DecodeIgnore p.2.data ∧
         e.type = get_barcode_type_name p.2.type) :=
  payload_conversion_lossy_ignore envBad [] imgW rfl

/-- Claim C5 counterexample: for the payload "WIFI:S:AS:B;" the source
prints SSID "A" — split('S:')[1] ends at the second "S:", before the
first ';' — while the substring between the first "S:" and the following
';' is "AS:B"; the two outputs differ. -/
theorem analyze_qr_ssid_cex :
    analyze_qr_content "WIFI:S:AS:B;".data =
      ("• **Type :** Configuration WiFi\n" ++ "• **SSID :** A\n" ++
       "• **Longueur :** 12 caractères\n").data ∧
    analyze_qr_content "WIFI:S:AS:B;".data ≠
      ("• **Type :** Configuration WiFi\n" ++ "• **SSID :** AS:B\n" ++
       "• **Longueur :** 12 caractères\n").data :=
  ⟨by decide, by decide⟩

/-- Claim C5 (amended): QR-content classification is total and matches
prefixes in priority order, first match winning: http gives URL, mailto:
gives Email, tel: gives Téléphone, WIFI: gives WiFi-config — the SSID
being the substring after the first "S:" up to the next ';' or the next
"S:", whichever comes first, when "S:" is present — BEGIN:VCARD gives the
vCard type, and anything else the generic Texte; the payload character
length is reported in every case. -/
theorem analyze_qr_classification :
    (∀ data : List Char, pyStartswith data "http".data = true →
       analyze_qr_content data = "• **Type :** URL\n".data ++ "• **Longueur :** ".data ++
         (toString data.length).data ++ " caractères\n".data) ∧
    (∀ data : List Char, pyStartswith data "mailto:".data = true →
       analyze_qr_content data = "• **Type :** Email\n".data ++ "• **Longueur :** ".data ++
         (toString data.length).data ++ " caractères\n".data) ∧
    (∀ data : List Char, pyStartswith data "tel:".data = true →
       analyze_qr_content data = "• **Type :** Téléphone\n".data ++
         "• **Longueur :** ".data ++ (toString data.length).data ++ " caractères\n".data) ∧
    (∀ a s t : List Char,
       pyStartswith (a ++ 'S' :: ':' :: (s ++ t)) "WIFI:".data = true →
       firstOcc "S:".data a = none → firstOcc "S:".data s = none →
       firstOcc ";".data s = none →
       (t = [] ∨ (∃ u, t = ';' :: u) ∨ (∃ u, t = 'S' :: ':' :: u)) →
       analyze_qr_content (a ++ 'S' :: ':' :: (s ++ t)) =
         "• **Type :** Configuration WiFi\n".data ++ "• **SSID :** ".data ++ s ++
         "\n".data ++ "• **Longueur :** ".data ++
         (toString (a ++ 'S' :: ':' :: (s ++ t)).length).data ++ " caractères\n".data) ∧
    (∀ data : List Char, pyStartswith data "BEGIN:VCARD".data = true →
       analyze_qr_content data = "• **Type :** Carte de visite (vCard)\n".data ++
         "• **Longueur :** ".data ++ (toString data.length).data ++ " caractères\n".data) ∧
    (∀ data : List Char, pyStartswith data "http".data = false →
       pyStartswith data "mailto:".data = false →
       pyStartswith data "tel:".data = false →
       pyStartswith data "WIFI:".data = false →
       pyStartswith data "BEGIN:VCARD".data = false →
       analyze_qr_content data = "• **Type :** Texte\n".data ++
         "• **Longueur :** ".data ++ (toString data.length).data ++ " caractères\n".data) :=
  ⟨aqc_http, aqc_mailto, aqc_tel, aqc_wifi_ssid, aqc_vcard, aqc_texte⟩

theorem analyze_qr_classification_witness :
    analyze_qr_content "http://e.co".data =
      "• **Type :** URL\n• **Longueur :** 11 caractères\n".data ∧
    analyze_qr_content "mailto:a@b".data =
      "• **Type :** Email\n• **Longueur :** 10 caractères\n".data ∧
    analyze_qr_content "tel:+336".data =
      "• **Type :** Téléphone\n• **Longueur :** 8 caractères\n".data ∧
    analyze_qr_content "WIFI:S:MyNetwork;T:WPA;P:secret;;".data =
      "• **Type :** Configuration WiFi\n• **SSID :** MyNetwork\n• **Longueur :** 33 caractères\n".data ∧
    analyze_qr_content "BEGIN:VCARD+x".data =
      "• **Type :** Carte de visite (vCard)\n• **Longueur :** 13 caractères\n".data ∧
    analyze_qr_content "hello".data =
      "• **Type :** Texte\n• **Longueur :** 5 caractères\n".data := by
  refine ⟨?_, ?_, ?_, ?_, ?_, ?_⟩
  · rw [analyze_qr_classification.1 "http://e.co".data (by decide)]
    decide
  · rw [analyze_qr_classification.2.1 "mailto:a@b".data (by decide)]
    decide
  · rw [analyze_qr_classification.2.2.1 "tel:+336".data (by decide)]
    decide
  · have happ : "WIFI:S:MyNetwork;T:WPA;P:secret;;".data
        = "WIFI:".data ++ 'S' :: ':' :: ("MyNetwork".data ++ ";T:WPA;P:secret;;".data) := by
      decide
    rw [happ, analyze_qr_classification.2.2.2.1 "WIFI:".data "MyNetwork".data
        ";T:WPA;P:secret;;".data (by decide) (by decide) (by decide) (by decide)
        (Or.inr (Or.inl ⟨"T:WPA;P:secret;;".data, by decide⟩))]
    decide
  · rw [analyze_qr_classification.2.2.2.2.1 "BEGIN:VCARD+x".data (by decide)]
    decide
  · rw [analyze_qr_classification.2.2.2.2.2 "hello".data (by decide) (by decide)
        (by decide) (by decide) (by decide)]
    decide

theorem take_of_len (l r : List Char) (n : ℕ) (h : l.length = n) :
    (l ++ r).take n = l := by
  rw [← h]
  exact List.take_left l r

theorem drop_of_len (l r : List Char) (n : ℕ) (h : l.length = n) :
    (l ++ r).drop n = r := by
  rw [← h]
  exact List.drop_left l r

/-- Claim C6: analyze_product_code decomposes a 13-character payload into
country (3), manufacturer (5), product (4) and check digit (1), an
8-character payload into country (2), product (5) and check digit (1),
and produces nothing for any other length. -/
theorem analyze_product_code_decomposition :
    (∀ a b c d : List Char, a.length = 3 → b.length = 5 → c.length = 4 → d.length = 1 →
       analyze_product_code (a ++ b ++ c ++ d) =
         "• **Code pays :** ".data ++ a ++ "\n".data ++
         "• **Code fabricant :** ".data ++ b ++ "\n".data ++
         "• **Code produit :** ".data ++ c ++ "\n".data ++
         "• **Chiffre de contrôle :** ".data ++ d ++ "\n".data) ∧
    (∀ a b c : List Char, a.length = 2 → b.length = 5 → c.length = 1 →
       analyze_product_code (a ++ b ++ c) =
         "• **Code pays :** ".data ++ a ++ "\n".data ++
         "• **Code produit :** ".data ++ b ++ "\n".data ++
         "• **Chiffre de contrôle :** ".data ++ c ++ "\n".data) ∧
    (∀ data : List Char, data.length ≠ 13 → data.length ≠ 8 →
       analyze_product_code data = []) := by
  refine ⟨?_, ?_, ?_⟩
  · intro a b c d ha hb hc hd
    simp only [List.append_assoc]
    have hlen : (a ++ (b ++ (c ++ d))).length = 13 := by
      simp [ha, hb, hc, hd]
    have h1 : (a ++ (b ++ (c ++ d))).take 3 = a := take_of_len a _ 3 ha
    have hd3 : (a ++ (b ++ (c ++ d))).drop 3 = b ++ (c ++ d) := drop_of_len a _ 3 ha
    have h2 : ((a ++ (b ++ (c ++ d))).drop 3).take 5 = b := by
      rw [hd3]
      exact take_of_len b _ 5 hb
    have hd8 : (a ++ (b ++ (c ++ d))).drop 8 = c ++ d := by
      have he : (a ++ (b ++ (c ++ d))).drop 8 = ((a ++ (b ++ (c ++ d))).drop 3).drop 5 := by
        rw [List.drop_drop]
      rw [he, hd3, drop_of_len b _ 5 hb]
    have h3 : ((a ++ (b ++ (c ++ d))).drop 8).take 4 = c := by
      rw [hd8]
      exact take_of_len c _ 4 hc
    have hd12 : (a ++ (b ++ (c ++ d))).drop 12 = d := by
      have he : (a ++ (b ++ (c ++ d))).drop 12 = ((a ++ (b ++ (c ++ d))).drop 8).drop 4 := by
        rw [List.drop_drop]
      rw [he, hd8, drop_of_len c _ 4 hc]
    have h4 : ((a ++ (b ++ (c ++ d))).drop 12).take 1 = d := by
      rw [hd12, ← hd, List.take_length]
    unfold analyze_product_code
    rw [if_pos hlen, h1, h2, h3, h4]
    simp [List.append_assoc]
  · intro a b c ha hb hc
    simp only [List.append_assoc]
    have hlen : (a ++ (b ++ c)).length = 8 := by
      simp [ha, hb, hc]
    have hlen13 : ¬(a ++ (b ++ c)).length = 13 := by
      rw [hlen]; decide
    have h1 : (a ++ (b ++ c)).take 2 = a := take_of_len a _ 2 ha
    have hd2 : (a ++ (b ++ c)).drop 2 = b ++ c := drop_of_len a _ 2 ha
    have h2 : ((a ++ (b ++ c)).drop 2).take 5 = b := by
      rw [hd2]
      exact take_of_len b _ 5 hb
    have hd7 : (a ++ (b ++ c)).drop 7 = c := by
      have he : (a ++ (b ++ c)).drop 7 = ((a ++ (b ++ c)).drop 2).drop 5 := by
        rw [List.drop_drop]
      rw [he, hd2, drop_of_len b _ 5 hb]
    have h3 : ((a ++ (b ++ c)).drop 7).take 1 = c := by
      rw [hd7, ← hc, List.take_length]
    unfold analyze_product_code
    rw [if_neg hlen13, if_pos hlen, h1, h2, h3]
    simp [List.append_assoc]
  · intro data h13 h8
    unfold analyze_product_code
    rw [if_neg h13, if_neg h8]

theorem analyze_product_code_decomposition_witness :
    ("4006381333931".data = "400".data ++ "63813".data ++ "3393".data ++ "1".data) ∧
    analyze_product_code ("400".data ++ "63813".data ++ "3393".data ++ "1".data) =
      ("• **Code pays :** 400\n• **Code fabricant :** 63813\n" ++
       "• **Code produit :** 3393\n• **Chiffre de contrôle :** 1\n").data ∧
    analyze_product_code ("12".data ++ "34567".data ++ "8".data) =
      ("• **Code pays :** 12\n• **Code produit :** 34567\n" ++
       "• **Chiffre de contrôle :** 8\n").data ∧
    analyze_product_code "123".data = [] := by
  refine ⟨by decide, ?_, ?_, ?_⟩
  · rw [analyze_product_code_decomposition.1 "400".data "63813".data "3393".data "1".data
        rfl rfl rfl rfl]
    decide
  · rw [analyze_product_code_decomposition.2.1 "12".data "34567".data "8".data rfl rfl rfl]
    decide
  · exact analyze_product_code_decomposition.2.2 "123".data (by decide) (by decide)

/-- Claim C7: in every decode_codes result the total_codes field is the
length of the codes_found list (and both are absent together on the error
path). -/
theorem decode_codes_count_consistency (env : Env) (data : List ℕ) :
    (decode_codes env data).total_codes =
      Option.map List.length (decode_codes env data).codes_found := by
  cases h : env.imdecode data with
  | none => rw [decode_codes_fail env data h]; rfl
  | some img => rw [decode_codes_ok env data img h]; rfl

/-- Claim C8: aggregation over the variant list is monotone — every
deduplication key present in the report of a sub-sequence of variants is
present in the report of any super-sequence: adding variants never
removes a detection. -/
theorem aggregate_union_monotone (env : Env) (l₁ l₂ : List Img) (h : l₁.Sublist l₂)
    (k : String × String) (hk : k ∈ (aggregate env l₁).map keyOf) :
    k ∈ (aggregate env l₂).map keyOf := by
  rw [keys_aggregate] at hk ⊢
  exact (listFlat_sublist _ h).subset hk

theorem aggregate_union_monotone_witness :
    keyOf (mkEntry 0 objA) ∈ (aggregate envDup [imgW, imgW]).map keyOf :=
  aggregate_union_monotone envDup [imgW] [imgW, imgW]
    (List.Sublist.cons imgW (List.Sublist.refl [imgW]))
    (keyOf (mkEntry 0 objA)) (by decide)

/-- Claim C9: on an unreadable buffer the result carries only the error
message: the codes_found, image_info and total_codes fields are all
absent. -/
theorem decode_codes_error_bare (env : Env) (data : List ℕ)
    (h : env.imdecode data = none) :
    (decode_codes env data).error = some "Impossible de lire l'image" ∧
    (decode_codes env data).codes_found = none ∧
    (decode_codes env data).image_info = none ∧
    (decode_codes env data).total_codes = none := by
  rw [decode_codes_fail env data h]
  exact ⟨rfl, rfl, rfl, rfl⟩

theorem decode_codes_error_bare_witness :
    (decode_codes envNone []).error = some "Impossible de lire l'image" ∧
    (decode_codes envNone []).codes_found = none ∧
    (decode_codes envNone []).image_info = none ∧
    (decode_codes envNone []).total_codes = none :=
  decode_codes_error_bare envNone [] rfl

/-- Claim C10: in the WiFi branch, when the payload holds an "S:" with no
';' and no further "S:" after it, the whole remainder after the first
"S:" is printed as the SSID; when the payload holds no "S:" at all the
WiFi type line is still printed but no SSID line. -/
theorem analyze_qr_wifi_edge_cases :
    (∀ a b : List Char,
       pyStartswith (a ++ 'S' :: ':' :: b) "WIFI:".data = true →
       firstOcc "S:".data a = none → firstOcc "S:".data b = none →
       firstOcc ";".data b = none →
       analyze_qr_content (a ++ 'S' :: ':' :: b) =
         "• **Type :** Configuration WiFi\n".data ++ "• **SSID :** ".data ++ b ++
         "\n".data ++ "• **Longueur :** ".data ++
         (toString (a ++ 'S' :: ':' :: b).length).data ++ " caractères\n".data) ∧
    (∀ data : List Char, pyStartswith data "WIFI:".data = true →
       pyContains data "S:".data = false →
       analyze_qr_content data = "• **Type :** Configuration WiFi\n".data ++
         "• **Longueur :** ".data ++ (toString data.length).data ++ " caractères\n".data) := by
  constructor
  · intro a b hw ha hb hsemi
    have h := aqc_wifi_ssid a b [] (by rw [List.append_nil]; exact hw) ha hb hsemi
      (Or.inl rfl)
    rw [List.append_nil] at h
    exact h
  · exact aqc_wifi_nossid

theorem analyze_qr_wifi_edge_cases_witness :
    analyze_qr_content "WIFI:S:OpenNet".data =
      "• **Type :** Configuration WiFi\n• **SSID :** OpenNet\n• **Longueur :** 14 caractères\n".data ∧
    analyze_qr_content "WIFI:T:WPA;;".data =
      "• **Type :** Configuration WiFi\n• **Longueur :** 12 caractères\n".data := by
  constructor
  · have happ : "WIFI:S:OpenNet".data = "WIFI:".data ++ 'S' :: ':' :: "OpenNet".data := by
      decide
    rw [happ, analyze_qr_wifi_edge_cases.1 "WIFI:".data "OpenNet".data (by decide)
        (by decide) (by decide) (by decide)]
    decide
  · rw [analyze_qr_wifi_edge_cases.2 "WIFI:T:WPA;;".data (by decide) (by decide)]
    decide
